import Mathlib

/-!
Verification of the tinkering-audio synthesis core: envelope evaluator
(envelope.py), tone generators (tone.py) and the peaking biquad filter
(filter.py), embedded shallowly over the reals. Machine floats are modelled
by real arithmetic; Python `int()` (truncation toward zero) is `truncInt`;
a Python method that can fall through without returning (or crash) yields
`Option`.
-/

namespace TinkeringAudio

/-- Python `int()` applied to a float: truncation toward zero. -/
noncomputable def truncInt (x : ℝ) : ℤ :=
  if 0 ≤ x then ⌊x⌋ else ⌈x⌉

theorem truncInt_intCast (n : ℤ) : truncInt (n : ℝ) = n := by
  unfold truncInt
  split <;> simp

/-- EnvelopeType enum from envelope.py. -/
inductive EnvelopeType where
  | amplitude : EnvelopeType
  | frequency : EnvelopeType
deriving DecidableEq

/-- EnvelopePhase enum from envelope.py. -/
inductive EnvelopePhase where
  | attack : EnvelopePhase
  | decay : EnvelopePhase
  | sustain : EnvelopePhase
  | release : EnvelopePhase
deriving DecidableEq

/-- The Envelope class fields (envelope.py, `Envelope.__init__`). -/
structure Envelope where
  type : EnvelopeType
  attack_length : ℝ
  decay_length : ℝ
  sustain_level : ℝ
  sustain_length : ℝ
  release_length : ℝ

/-- `Envelope.get_phase` (envelope.py lines 84-101).  Python falls off the
end of the method (returning None) when `sample_index` is past
`release_end`; that is the `none` branch. -/
noncomputable def Envelope.get_phase (e : Envelope) (sample_index : ℝ)
    (number_of_samples : ℝ) : Option EnvelopePhase :=
  let attack_end := e.attack_length * number_of_samples
  let decay_end := attack_end + e.decay_length * number_of_samples
  let sustain_end := decay_end + e.sustain_length * number_of_samples
  let release_end := sustain_end + e.release_length * number_of_samples
  if sample_index < attack_end then some EnvelopePhase.attack
  else if sample_index < decay_end then some EnvelopePhase.decay
  else if sample_index < sustain_end then some EnvelopePhase.sustain
  else if sample_index < release_end then some EnvelopePhase.release
  else none

/-- `Envelope.get_frequency_sustain_level` (envelope.py lines 76-82):
`INTERVAL = 2.0**(1.0/12.0)`, result `default_frequency * INTERVAL ** sustain_level`. -/
noncomputable def Envelope.get_frequency_sustain_level (e : Envelope)
    (default_frequency : ℝ) : ℝ :=
  if e.sustain_level = 0 then default_frequency
  else default_frequency * ((2 : ℝ) ^ ((1 : ℝ) / 12)) ^ e.sustain_level

/-- The sustain level resolution performed inline in `Envelope.get_value`
(envelope.py lines 43-49). -/
noncomputable def Envelope.resolved_sustain_level (e : Envelope)
    (default_value : ℝ) : ℝ :=
  if e.type = EnvelopeType.amplitude then
    if e.sustain_level = 0 then default_value else e.sustain_level
  else e.get_frequency_sustain_level default_value

/-- `Envelope.get_value` (envelope.py lines 26-74).  When `get_phase`
returns None, none of the four `if phase == ...` branches fire and the
Python method returns None. -/
noncomputable def Envelope.get_value (e : Envelope) (default_value : ℝ)
    (sample_index : ℝ) (number_of_samples : ℝ) : Option ℝ :=
  let attack_length := e.attack_length * number_of_samples
  let decay_length := e.decay_length * number_of_samples
  let sustain_length := e.sustain_length * number_of_samples
  let release_length := e.release_length * number_of_samples
  let decay_start := attack_length
  let release_start := attack_length + decay_length + sustain_length
  let sustain_level := e.resolved_sustain_level default_value
  match e.get_phase sample_index number_of_samples with
  | some EnvelopePhase.attack =>
      let envelope := sample_index / attack_length
      let new_value := default_value * envelope
      if e.type = EnvelopeType.frequency ∧ new_value = 0 then some 1
      else some new_value
  | some EnvelopePhase.decay =>
      let envelope := 1 - (sample_index - decay_start) / decay_length
      let new_value := default_value * envelope
      if new_value < sustain_level then some sustain_level
      else some new_value
  | some EnvelopePhase.sustain => some sustain_level
  | some EnvelopePhase.release =>
      let envelope := 1 - (sample_index - release_start) / release_length
      some (envelope * sustain_level)
  | none => none

/-- The shared Tone fields (tone.py, `Tone.__init__`).  `seconds` enters the
per-sample computation only through `seconds * sampling_rate`, the envelope
total passed by `_get_amplitude` / `_get_frequency`. -/
structure Tone where
  note : ℝ
  amplitude : ℝ
  seconds : ℝ
  amplitude_env : Option Envelope
  frequency_env : Option Envelope

/-- `Tone.__convert_note_to_freq` (tone.py lines 152-169):
`BASE_FREQUENCY = 440`, `INTERVAL = 2.0**(1.0/12.0)`,
`frequency = BASE_FREQUENCY * INTERVAL ** note`. -/
noncomputable def convert_note_to_freq (note : ℝ) : ℝ :=
  440 * ((2 : ℝ) ^ ((1 : ℝ) / 12)) ^ note

/-- The `frequency` property, set by the `note` setter from
`__convert_note_to_freq` (tone.py lines 76-80). -/
noncomputable def Tone.frequency (t : Tone) : ℝ :=
  convert_note_to_freq t.note

/-- `Tone._get_amplitude` (tone.py lines 119-134).  The envelope total is
`self.seconds * sampling_rate`.  `Envelope.get_value` can return None, which
this method passes through; later arithmetic on it would crash, so the
result is an `Option`. -/
noncomputable def Tone.get_amplitude (t : Tone) (sampling_rate : ℝ)
    (sample_index : ℝ) : Option ℝ :=
  match t.amplitude_env with
  | some env => env.get_value t.amplitude sample_index (t.seconds * sampling_rate)
  | none => some t.amplitude

/-- `Tone._get_frequency` (tone.py lines 136-150), analogous to
`_get_amplitude` but driven by the frequency envelope. -/
noncomputable def Tone.get_frequency (t : Tone) (sampling_rate : ℝ)
    (sample_index : ℝ) : Option ℝ :=
  match t.frequency_env with
  | some env => env.get_value t.frequency sample_index (t.seconds * sampling_rate)
  | none => some t.frequency

/-- `Tone._get_sine_value` (tone.py lines 191-213): resolve the frequency,
advance the phase by `2*pi / ((1/frequency) * sampling_rate)` and return
`(sin(phase), phase)`. -/
noncomputable def Tone.get_sine_value (t : Tone) (sampling_rate : ℝ)
    (sample_index : ℝ) (previous_phase : ℝ) : Option (ℝ × ℝ) := do
  let frequency ← t.get_frequency sampling_rate sample_index
  let seconds_per_cycle := 1 / frequency
  let samples_per_cycle := seconds_per_cycle * sampling_rate
  let cycle_size := 2 * Real.pi
  let phase_increment := cycle_size / samples_per_cycle
  let phase := previous_phase + phase_increment
  pure (Real.sin phase, phase)

/-- `SineTone._create_sample` (tone.py lines 228-240):
`sample = int(sine_value * amplitude)`, returned with the new phase. -/
noncomputable def SineTone.create_sample (t : Tone) (sampling_rate : ℝ)
    (sample_index : ℕ) (previous_phase : ℝ) : Option (ℤ × ℝ) := do
  let amplitude ← t.get_amplitude sampling_rate sample_index
  let (sine_value, phase) ← t.get_sine_value sampling_rate sample_index previous_phase
  pure (truncInt (sine_value * amplitude), phase)

/-- The body of the `for i in xrange(1, levels + 1)` loop of
`HarmonicSawTone._create_sample` (tone.py lines 310-321), running the
remaining `n` iterations with loop counter `i`, accumulating `sample` and
overwriting `phase`.  Every iteration reads `self._get_amplitude` and
`self._get_sine_value(sampling_rate, sample_index, previous_phase)` with the
same `previous_phase`; the local `frequency` variable incremented by the
loop is never read, so it does not appear in the state. -/
noncomputable def harmonicSawGo (t : Tone) (sampling_rate : ℝ)
    (sample_index : ℕ) (previous_phase : ℝ) :
    ℕ → ℕ → ℤ → Option ℝ → Option (ℤ × Option ℝ)
  | 0, _, sample, phase => some (sample, phase)
  | n + 1, i, sample, _ => do
      let amplitude ← t.get_amplitude sampling_rate sample_index
      let amplitude := amplitude / (i : ℝ)
      let (sine_value, phase) ← t.get_sine_value sampling_rate sample_index previous_phase
      harmonicSawGo t sampling_rate sample_index previous_phase n (i + 1)
        (sample + truncInt (sine_value * amplitude)) (some phase)

/-- `HarmonicSawTone._create_sample` (tone.py lines 300-321): run the loop
from `i = 1` with `sample = 0`; the returned `phase` is the one left by the
last iteration (unbound, a crash, when `levels = 0`, hence the final bind). -/
noncomputable def HarmonicSawTone.create_sample (t : Tone) (levels : ℕ)
    (sampling_rate : ℝ) (sample_index : ℕ) (previous_phase : ℝ) :
    Option (ℤ × ℝ) := do
  let (sample, phaseOpt) ←
    harmonicSawGo t sampling_rate sample_index previous_phase levels 1 0 none
  let phase ← phaseOpt
  pure (sample, phase)

/-- The Noise tone fields (tone.py, `Noise.__init__`): `note` defaults to
None and the `note` setter ignores Noise instances, so no frequency is ever
derived. -/
structure NoiseTone where
  note : Option ℝ
  amplitude : ℝ
  seconds : ℝ
  amplitude_env : Option Envelope
  frequency_env : Option Envelope

/-- `Noise._create_sample` (tone.py lines 346-358): `raw_sample` is the
`random.uniform(0, 1)` draw, supplied here as an explicit input;
`sample = int(raw_sample * self.amplitude)`, and None is returned in place
of the sine phase. -/
noncomputable def Noise.create_sample (t : NoiseTone) (sampling_rate : ℝ)
    (sample_index : ℕ) (raw_sample : ℝ) : ℤ × Option ℝ :=
  (truncInt (raw_sample * t.amplitude), none)

/-- The loop of `Tone.__generate` (tone.py lines 171-189) for the pitched
tones, abstracted over the per-sample step: `n` remaining samples, current
index `i`, threaded `previous_phase`; a `none` step (a Python crash) aborts
the run. -/
noncomputable def generateFrom (step : ℕ → ℝ → Option (ℤ × ℝ)) :
    ℕ → ℕ → ℝ → Option (List ℤ)
  | 0, _, _ => some []
  | n + 1, i, previous_phase =>
      match step i previous_phase with
      | none => none
      | some (sample, phase) =>
          match generateFrom step n (i + 1) phase with
          | none => none
          | some rest => some (sample :: rest)

/-- `Tone.__generate` (tone.py lines 171-189): `sample_count` comes from
the out-of-scope sound collaborator's `convert_secs_to_samples`, so it is a
parameter; the phase starts at 0. -/
noncomputable def Tone.generate (step : ℕ → ℝ → Option (ℤ × ℝ))
    (sample_count : ℕ) : Option (List ℤ) :=
  generateFrom step sample_count 0 0

/-- `Tone.__generate` specialised to Noise (phase threading is inert: Noise
returns None for the phase and never reads it): sample `i` is
`int(stream i * amplitude)` where `stream` is the random draw sequence. -/
noncomputable def Noise.generate (t : NoiseTone) (sampling_rate : ℝ)
    (stream : ℕ → ℝ) (sample_count : ℕ) : List ℤ :=
  (List.range sample_count).map
    (fun i => (Noise.create_sample t sampling_rate i (stream i)).1)

/-- The Filter state (filter.py, `Filter.__init__`): the `starting_frequency`
setter also sets `center_frequency`; the four-slot delay memory starts
zeroed; `sample_number` starts at 0.  Python leaves the six coefficients
unbound until `_recalculate_coefficients` runs (and `Peaking.process` runs
it before any read); they are carried here as state fields, initialised
arbitrarily to 0 by `Filter.make`. -/
structure FilterState where
  sampling_rate : ℝ
  gain : ℝ
  starting_frequency : ℝ
  center_frequency : ℝ
  bandwidth : ℝ
  envelope : Option Envelope
  previous_input : ℤ
  second_previous_input : ℤ
  previous_output : ℤ
  second_previous_output : ℤ
  sample_number : ℕ
  a0 : ℝ
  a1 : ℝ
  a2 : ℝ
  b0 : ℝ
  b1 : ℝ
  b2 : ℝ

/-- `Filter.__init__` (filter.py lines 16-23). -/
def Filter.make (sampling_rate starting_frequency bandwidth gain : ℝ)
    (envelope : Option Envelope) : FilterState :=
  { sampling_rate := sampling_rate
    gain := gain
    starting_frequency := starting_frequency
    center_frequency := starting_frequency
    bandwidth := bandwidth
    envelope := envelope
    previous_input := 0
    second_previous_input := 0
    previous_output := 0
    second_previous_output := 0
    sample_number := 0
    a0 := 0, a1 := 0, a2 := 0, b0 := 0, b1 := 0, b2 := 0 }

/-- The `A` property (filter.py line 69): `10 ** (gain/40)`. -/
noncomputable def FilterState.A (f : FilterState) : ℝ :=
  (10 : ℝ) ^ (f.gain / 40)

/-- The `w0` property (filter.py line 73). -/
noncomputable def FilterState.w0 (f : FilterState) : ℝ :=
  2 * Real.pi * f.center_frequency / f.sampling_rate

/-- The `w0_cosine` property (filter.py line 77). -/
noncomputable def FilterState.w0_cosine (f : FilterState) : ℝ :=
  Real.cos f.w0

/-- The `w0_sine` property (filter.py line 81). -/
noncomputable def FilterState.w0_sine (f : FilterState) : ℝ :=
  Real.sin f.w0

/-- The `alpha` property (filter.py line 85):
`w0_sine * sinh(log(2)/2 * bandwidth * w0 / w0_sine)`. -/
noncomputable def FilterState.alpha (f : FilterState) : ℝ :=
  f.w0_sine * Real.sinh (Real.log 2 / 2 * f.bandwidth * f.w0 / f.w0_sine)

/-- `alpha` as a function of the three fields it reads, for stating
hypotheses that range over every center frequency a filter can reach. -/
noncomputable def alphaOf (sampling_rate bandwidth center_frequency : ℝ) : ℝ :=
  Real.sin (2 * Real.pi * center_frequency / sampling_rate) *
    Real.sinh (Real.log 2 / 2 * bandwidth *
      (2 * Real.pi * center_frequency / sampling_rate) /
      Real.sin (2 * Real.pi * center_frequency / sampling_rate))

theorem alpha_eq_alphaOf (f : FilterState) :
    f.alpha = alphaOf f.sampling_rate f.bandwidth f.center_frequency := rfl

/-- `Peaking._recalculate_coefficients` (filter.py lines 114-121): `a0` is
assigned first and the remaining five coefficients divide by it. -/
noncomputable def Peaking.recalculate_coefficients (f : FilterState) : FilterState :=
  let a0 := 1 + f.alpha / f.A
  { f with
    a0 := a0
    a1 := (-2 * f.w0_cosine) / a0
    a2 := (1 - f.alpha / f.A) / a0
    b0 := (1 + f.alpha * f.A) / a0
    b1 := (-2 * f.w0_cosine) / a0
    b2 := (1 - f.alpha * f.A) / a0 }

/-- `Filter.process` (filter.py lines 90-107) as run by a Peaking filter:
FIRST `_recalculate_coefficients`, THEN (if an envelope is present)
`center_frequency = envelope.get_value(starting_frequency, sample_number,
sample_total)`, then the output from the coefficients and delay memory,
then the memory shift and counter increment.  An envelope evaluation that
returns None is a crash, modelled as `none`. -/
noncomputable def Peaking.process (f : FilterState) (orig_sample : ℤ)
    (sample_total : ℝ) : Option (ℤ × FilterState) :=
  let f1 := Peaking.recalculate_coefficients f
  let f2opt : Option FilterState :=
    match f1.envelope with
    | none => some f1
    | some env =>
        match env.get_value f1.starting_frequency (f1.sample_number : ℝ) sample_total with
        | none => none
        | some v => some { f1 with center_frequency := v }
  match f2opt with
  | none => none
  | some f2 =>
      let new_sample := truncInt (f2.b0 * (orig_sample : ℝ) +
        f2.b1 * (f2.previous_input : ℝ) + f2.b2 * (f2.second_previous_input : ℝ) -
        f2.a1 * (f2.previous_output : ℝ) - f2.a2 * (f2.second_previous_output : ℝ))
      some (new_sample,
        { f2 with
          second_previous_input := f2.previous_input
          previous_input := orig_sample
          second_previous_output := f2.previous_output
          previous_output := new_sample
          sample_number := f2.sample_number + 1 })

/-- Feeding a finite sequence of samples through `Peaking.process` in
order, collecting the outputs and the final state. -/
noncomputable def Peaking.process_list (f : FilterState) (sample_total : ℝ) :
    List ℤ → Option (List ℤ × FilterState)
  | [] => some ([], f)
  | x :: xs =>
      match Peaking.process f x sample_total with
      | none => none
      | some (y, f1) =>
          match Peaking.process_list f1 sample_total xs with
          | none => none
          | some (ys, f2) => some (y :: ys, f2)

/-- The entry states of the successive `process` calls of a run: the state
whose `center_frequency` each call's `_recalculate_coefficients` actually
reads (a crashed call ends the trace). -/
noncomputable def Peaking.process_states (f : FilterState) (sample_total : ℝ) :
    List ℤ → List FilterState
  | [] => []
  | x :: xs =>
      f ::
        (match Peaking.process f x sample_total with
        | none => []
        | some (_, f1) => Peaking.process_states f1 sample_total xs)

/-! ### Envelope phase selection facts -/

theorem get_phase_attack_bounds (e : Envelope) (si N : ℝ)
    (h : e.get_phase si N = some EnvelopePhase.attack) :
    si < e.attack_length * N := by
  simp only [Envelope.get_phase] at h
  split_ifs at h with h1 h2 h3 h4 <;> simp_all

theorem get_phase_decay_bounds (e : Envelope) (si N : ℝ)
    (h : e.get_phase si N = some EnvelopePhase.decay) :
    e.attack_length * N ≤ si ∧
      si < e.attack_length * N + e.decay_length * N := by
  simp only [Envelope.get_phase] at h
  split_ifs at h with h1 h2 h3 h4 <;> simp_all

theorem get_phase_sustain_bounds (e : Envelope) (si N : ℝ)
    (h : e.get_phase si N = some EnvelopePhase.sustain) :
    e.attack_length * N + e.decay_length * N ≤ si ∧
      si < e.attack_length * N + e.decay_length * N + e.sustain_length * N := by
  simp only [Envelope.get_phase] at h
  split_ifs at h with h1 h2 h3 h4 <;> simp_all

theorem get_phase_release_bounds (e : Envelope) (si N : ℝ)
    (h : e.get_phase si N = some EnvelopePhase.release) :
    e.attack_length * N + e.decay_length * N + e.sustain_length * N ≤ si ∧
      si < e.attack_length * N + e.decay_length * N + e.sustain_length * N +
        e.release_length * N := by
  simp only [Envelope.get_phase] at h
  split_ifs at h with h1 h2 h3 h4 <;> simp_all

/-- C10: for every envelope with nonnegative decay, sustain and release
proportions, a nonnegative total sample count, and any sample index at or
past `release_end`, `get_phase` selects no phase and `get_value` returns no
value (Python None): the out-of-domain query yields an absent result. -/
theorem claim_C10_out_of_domain_returns_none (e : Envelope) (d si N : ℝ)
    (hd : 0 ≤ e.decay_length) (hs : 0 ≤ e.sustain_length)
    (hr : 0 ≤ e.release_length) (hN : 0 ≤ N)
    (hsi : e.attack_length * N + e.decay_length * N + e.sustain_length * N +
      e.release_length * N ≤ si) :
    e.get_phase si N = none ∧ e.get_value d si N = none := by
  have hdN : 0 ≤ e.decay_length * N := mul_nonneg hd hN
  have hsN : 0 ≤ e.sustain_length * N := mul_nonneg hs hN
  have hrN : 0 ≤ e.release_length * N := mul_nonneg hr hN
  have hphase : e.get_phase si N = none := by
    unfold Envelope.get_phase
    have h1 : ¬ si < e.attack_length * N := by push_neg; linarith
    have h2 : ¬ si < e.attack_length * N + e.decay_length * N := by
      push_neg; linarith
    have h3 : ¬ si < e.attack_length * N + e.decay_length * N +
        e.sustain_length * N := by push_neg; linarith
    have h4 : ¬ si < e.attack_length * N + e.decay_length * N +
        e.sustain_length * N + e.release_length * N := by push_neg; linarith
    simp [h1, h2, h3, h4]
  refine ⟨hphase, ?_⟩
  unfold Envelope.get_value
  rw [hphase]

theorem claim_C10_witness :
    (0 : ℝ) ≤ (1 : ℝ) / 4 ∧ (0 : ℝ) ≤ 4 ∧
    ((⟨EnvelopeType.amplitude, 1/4, 1/4, 0, 1/4, 1/4⟩ : Envelope).get_phase 4 4 = none ∧
      (⟨EnvelopeType.amplitude, 1/4, 1/4, 0, 1/4, 1/4⟩ : Envelope).get_value 10 4 4 = none) := by
  refine ⟨by norm_num, by norm_num, ?_⟩
  exact claim_C10_out_of_domain_returns_none _ 10 4 4 (by norm_num) (by norm_num)
    (by norm_num) (by norm_num) (by norm_num)

/-- C3: for a nonnegative sample index inside the envelope domain, any phase
that `get_phase` selects has a positive sample length, so each division in
`get_value` (by the attack, decay or release length) has a positive
divisor: a zero-length phase is never selected. -/
theorem claim_C3_no_division_by_zero (e : Envelope) (si N : ℝ)
    (h0 : 0 ≤ si)
    (hlt : si < e.attack_length * N + e.decay_length * N +
      e.sustain_length * N + e.release_length * N) :
    (e.get_phase si N = some EnvelopePhase.attack → 0 < e.attack_length * N) ∧
    (e.get_phase si N = some EnvelopePhase.decay → 0 < e.decay_length * N) ∧
    (e.get_phase si N = some EnvelopePhase.release → 0 < e.release_length * N) := by
  refine ⟨?_, ?_, ?_⟩
  · intro h
    have := get_phase_attack_bounds e si N h
    linarith
  · intro h
    have := get_phase_decay_bounds e si N h
    linarith [this.1, this.2]
  · intro h
    have := get_phase_release_bounds e si N h
    linarith [this.1, this.2]

theorem claim_C3_witness :
    (0 : ℝ) ≤ 1 ∧ (1 : ℝ) < 0 * 4 + 1 * 4 + 0 * 4 + 0 * 4 ∧
    (((⟨EnvelopeType.amplitude, 0, 1, 2, 0, 0⟩ : Envelope).get_phase 1 4 =
        some EnvelopePhase.attack → 0 < (0 : ℝ) * 4) ∧
      ((⟨EnvelopeType.amplitude, 0, 1, 2, 0, 0⟩ : Envelope).get_phase 1 4 =
        some EnvelopePhase.decay → 0 < (1 : ℝ) * 4) ∧
      ((⟨EnvelopeType.amplitude, 0, 1, 2, 0, 0⟩ : Envelope).get_phase 1 4 =
        some EnvelopePhase.release → 0 < (0 : ℝ) * 4)) := by
  refine ⟨by norm_num, by norm_num, ?_⟩
  exact claim_C3_no_division_by_zero ⟨EnvelopeType.amplitude, 0, 1, 2, 0, 0⟩ 1 4
    (by norm_num) (by norm_num)

/-- C4: with a positive attack proportion, a positive total sample count and
proportions summing to at most 1, `get_value` at sample index 0 returns 0
for an Amplitude envelope and 1 (not 0) for a Frequency envelope. -/
theorem claim_C4_attack_start_value (e : Envelope) (d N : ℝ)
    (hsum : e.attack_length + e.decay_length + e.sustain_length +
      e.release_length ≤ 1)
    (ha : 0 < e.attack_length) (hN : 0 < N) :
    (e.type = EnvelopeType.amplitude → e.get_value d 0 N = some 0) ∧
    (e.type = EnvelopeType.frequency → e.get_value d 0 N = some 1) := by
  have hphase : e.get_phase 0 N = some EnvelopePhase.attack := by
    unfold Envelope.get_phase
    have h1 : (0 : ℝ) < e.attack_length * N := mul_pos ha hN
    simp [h1]
  constructor
  · intro ht
    unfold Envelope.get_value
    rw [hphase]
    simp [ht]
  · intro ht
    unfold Envelope.get_value
    rw [hphase]
    simp [ht]

theorem claim_C4_witness :
    ((1 : ℝ) / 2 + 1/4 + 1/8 + 1/8 ≤ 1) ∧ ((0 : ℝ) < 1/2) ∧ ((0 : ℝ) < 8) ∧
    (((⟨EnvelopeType.frequency, 1/2, 1/4, 3, 1/8, 1/8⟩ : Envelope).type =
        EnvelopeType.amplitude →
        (⟨EnvelopeType.frequency, 1/2, 1/4, 3, 1/8, 1/8⟩ : Envelope).get_value 440 0 8 =
          some 0) ∧
      ((⟨EnvelopeType.frequency, 1/2, 1/4, 3, 1/8, 1/8⟩ : Envelope).type =
        EnvelopeType.frequency →
        (⟨EnvelopeType.frequency, 1/2, 1/4, 3, 1/8, 1/8⟩ : Envelope).get_value 440 0 8 =
          some 1)) := by
  refine ⟨by norm_num, by norm_num, by norm_num, ?_⟩
  exact claim_C4_attack_start_value ⟨EnvelopeType.frequency, 1/2, 1/4, 3, 1/8, 1/8⟩
    440 8 (by norm_num) (by norm_num) (by norm_num)

/-- In the decay phase, `get_value` computes the linear ramp and clamps it
from below at the resolved sustain level: the result is a `max`. -/
theorem get_value_decay_eq_max (e : Envelope) (d si N : ℝ)
    (h : e.get_phase si N = some EnvelopePhase.decay) :
    e.get_value d si N = some (max (e.resolved_sustain_level d)
      (d * (1 - (si - e.attack_length * N) / (e.decay_length * N)))) := by
  simp only [Envelope.get_value, h]
  split_ifs with hc
  · rw [max_eq_left (le_of_lt hc)]
  · rw [max_eq_right (not_lt.mp hc)]

/-- C5: with a nonnegative base value, over sample indices in the decay
phase the envelope output is monotonically non-increasing and never drops
below the resolved sustain target. -/
theorem claim_C5_decay_monotone_above_sustain (e : Envelope) (d si sj N : ℝ)
    (hd : 0 ≤ d)
    (hi : e.get_phase si N = some EnvelopePhase.decay)
    (hj : e.get_phase sj N = some EnvelopePhase.decay)
    (hij : si ≤ sj) :
    ∃ vi vj, e.get_value d si N = some vi ∧ e.get_value d sj N = some vj ∧
      vj ≤ vi ∧ e.resolved_sustain_level d ≤ vj ∧
      e.resolved_sustain_level d ≤ vi := by
  obtain ⟨hia, hib⟩ := get_phase_decay_bounds e si N hi
  have hL : 0 < e.decay_length * N := by linarith
  refine ⟨_, _, get_value_decay_eq_max e d si N hi,
    get_value_decay_eq_max e d sj N hj, ?_, le_max_left _ _, le_max_left _ _⟩
  have hdiv : (si - e.attack_length * N) / (e.decay_length * N) ≤
      (sj - e.attack_length * N) / (e.decay_length * N) :=
    div_le_div_of_nonneg_right (by linarith) hL.le
  have hramp : d * (1 - (sj - e.attack_length * N) / (e.decay_length * N)) ≤
      d * (1 - (si - e.attack_length * N) / (e.decay_length * N)) :=
    mul_le_mul_of_nonneg_left (by linarith) hd
  exact max_le_max (le_refl _) hramp

theorem claim_C5_witness :
    (0 : ℝ) ≤ 8 ∧
    (⟨EnvelopeType.amplitude, 0, 1, 2, 0, 0⟩ : Envelope).get_phase 1 4 =
      some EnvelopePhase.decay ∧
    (⟨EnvelopeType.amplitude, 0, 1, 2, 0, 0⟩ : Envelope).get_phase 3 4 =
      some EnvelopePhase.decay ∧
    (1 : ℝ) ≤ 3 ∧
    (∃ vi vj,
      (⟨EnvelopeType.amplitude, 0, 1, 2, 0, 0⟩ : Envelope).get_value 8 1 4 = some vi ∧
      (⟨EnvelopeType.amplitude, 0, 1, 2, 0, 0⟩ : Envelope).get_value 8 3 4 = some vj ∧
      vj ≤ vi ∧
      (⟨EnvelopeType.amplitude, 0, 1, 2, 0, 0⟩ : Envelope).resolved_sustain_level 8 ≤ vj ∧
      (⟨EnvelopeType.amplitude, 0, 1, 2, 0, 0⟩ : Envelope).resolved_sustain_level 8 ≤ vi) := by
  have h1 : (⟨EnvelopeType.amplitude, 0, 1, 2, 0, 0⟩ : Envelope).get_phase 1 4 =
      some EnvelopePhase.decay := by
    simp only [Envelope.get_phase]
    norm_num
  have h3 : (⟨EnvelopeType.amplitude, 0, 1, 2, 0, 0⟩ : Envelope).get_phase 3 4 =
      some EnvelopePhase.decay := by
    simp only [Envelope.get_phase]
    norm_num
  exact ⟨by norm_num, h1, h3, by norm_num,
    claim_C5_decay_monotone_above_sustain ⟨EnvelopeType.amplitude, 0, 1, 2, 0, 0⟩
      8 1 3 4 (by norm_num) h1 h3 (by norm_num)⟩

/-- C9: the Noise sample sequence is a function of the amplitude and the
random stream only: two Noise tones with the same amplitude produce
identical samples for the same random draws, whatever note, duration,
amplitude envelope or frequency envelope they carry (the amplitude envelope
is not applied to noise). -/
theorem claim_C9_noise_depends_only_on_amplitude_and_stream
    (t t' : NoiseTone) (sampling_rate : ℝ) (stream : ℕ → ℝ) (n : ℕ)
    (hamp : t.amplitude = t'.amplitude) :
    Noise.generate t sampling_rate stream n =
      Noise.generate t' sampling_rate stream n := by
  unfold Noise.generate Noise.create_sample
  rw [hamp]

theorem claim_C9_witness :
    (⟨some 7, 100, 2, some ⟨EnvelopeType.amplitude, 1/4, 1/4, 50, 1/4, 1/4⟩,
        some ⟨EnvelopeType.frequency, 1/4, 1/4, 3, 1/4, 1/4⟩⟩ : NoiseTone).amplitude =
      (⟨none, 100, 5, none, none⟩ : NoiseTone).amplitude ∧
    Noise.generate ⟨some 7, 100, 2, some ⟨EnvelopeType.amplitude, 1/4, 1/4, 50, 1/4, 1/4⟩,
        some ⟨EnvelopeType.frequency, 1/4, 1/4, 3, 1/4, 1/4⟩⟩ 8000 (fun i => (i : ℝ) / 10) 5 =
      Noise.generate ⟨none, 100, 5, none, none⟩ 8000 (fun i => (i : ℝ) / 10) 5 := by
  refine ⟨rfl, ?_⟩
  exact claim_C9_noise_depends_only_on_amplitude_and_stream _ _ 8000 _ 5 rfl

/-- A single harmonic-saw step with `levels = 1` performs exactly the sine
step: the sole loop iteration divides the amplitude by 1 and reads the same
amplitude, frequency and phase as `SineTone._create_sample`. -/
theorem harmonic_saw_one_step (t : Tone) (sampling_rate : ℝ)
    (sample_index : ℕ) (previous_phase : ℝ) :
    HarmonicSawTone.create_sample t 1 sampling_rate sample_index previous_phase =
      SineTone.create_sample t sampling_rate sample_index previous_phase := by
  unfold HarmonicSawTone.create_sample SineTone.create_sample harmonicSawGo
  cases hA : t.get_amplitude sampling_rate sample_index with
  | none => simp
  | some amp =>
      cases hS : t.get_sine_value sampling_rate sample_index previous_phase with
      | none => simp
      | some sv =>
          obtain ⟨sine_value, phase⟩ := sv
          simp [harmonicSawGo]

/-- `generateFrom` only depends on the extensional behaviour of the step. -/
theorem generateFrom_congr (step step' : ℕ → ℝ → Option (ℤ × ℝ))
    (hstep : ∀ i p, step i p = step' i p) :
    ∀ (n i : ℕ) (p : ℝ), generateFrom step n i p = generateFrom step' n i p := by
  intro n
  induction n with
  | zero => intro i p; rfl
  | succ m ih =>
      intro i p
      unfold generateFrom
      rw [hstep i p]
      cases step' i p with
      | none => rfl
      | some s =>
          obtain ⟨sample, phase⟩ := s
          simp only
          rw [ih]

/-- C7: a HarmonicSawTone with `levels = 1` generates a sample sequence
identical to a SineTone with the same note, amplitude, duration and
envelopes, at every sampling rate and sample count. -/
theorem claim_C7_harmonic_saw_one_equals_sine (t : Tone) (sampling_rate : ℝ)
    (sample_count : ℕ) :
    Tone.generate
        (fun i p => HarmonicSawTone.create_sample t 1 sampling_rate i p)
        sample_count =
      Tone.generate (fun i p => SineTone.create_sample t sampling_rate i p)
        sample_count := by
  unfold Tone.generate
  exact generateFrom_congr _ _
    (fun i p => harmonic_saw_one_step t sampling_rate i p) sample_count 0 0

/-- C8 as amended: the emitted SineTone sample is the truncation toward
zero (Python `int()`) of `sin(phase) * amplitude_i`, where `amplitude_i` is
the envelope-resolved amplitude and `phase` is the accumulated oscillator
phase `previous_phase + 2*pi / ((1/frequency_i) * sampling_rate)`. -/
theorem claim_C8_sine_sample_truncated (t : Tone) (sampling_rate : ℝ)
    (sample_index : ℕ) (previous_phase amp f : ℝ)
    (ha : t.get_amplitude sampling_rate sample_index = some amp)
    (hf : t.get_frequency sampling_rate sample_index = some f) :
    SineTone.create_sample t sampling_rate sample_index previous_phase =
      some (truncInt (Real.sin (previous_phase +
          2 * Real.pi / (1 / f * sampling_rate)) * amp),
        previous_phase + 2 * Real.pi / (1 / f * sampling_rate)) := by
  simp [SineTone.create_sample, Tone.get_sine_value, ha, hf]

theorem claim_C8_witness :
    (⟨0, 3, 1, none, none⟩ : Tone).get_amplitude 2 ((0 : ℕ) : ℝ) = some 3 ∧
    (⟨0, 3, 1, none, none⟩ : Tone).get_frequency 2 ((0 : ℕ) : ℝ) =
      some (convert_note_to_freq 0) ∧
    SineTone.create_sample ⟨0, 3, 1, none, none⟩ 2 0 0 =
      some (truncInt (Real.sin ((0 : ℝ) +
          2 * Real.pi / (1 / convert_note_to_freq 0 * 2)) * 3),
        (0 : ℝ) + 2 * Real.pi / (1 / convert_note_to_freq 0 * 2)) := by
  refine ⟨rfl, ?_, ?_⟩
  · simp [Tone.get_frequency, Tone.frequency]
  · exact claim_C8_sine_sample_truncated ⟨0, 3, 1, none, none⟩ 2 0 0 3
      (convert_note_to_freq 0) rfl (by simp [Tone.get_frequency, Tone.frequency])

/-- C8 as stated is false: at note 0 (440 Hz), amplitude 3, sampling rate
5280 and the first sample, the accumulated phase is pi/6, the code emits
`int(sin(pi/6) * 3) = int(1.5) = 1`, but the claimed
`round(sin(phase) * amplitude_i)` is 2. -/
theorem claim_C8_counterexample :
    SineTone.create_sample ⟨0, 3, 1, none, none⟩ 5280 0 0 =
      some (1, Real.pi / 6) ∧
    round (Real.sin (Real.pi / 6) * (3 : ℝ)) ≠ (1 : ℤ) := by
  have hfreq : convert_note_to_freq 0 = 440 := by
    unfold convert_note_to_freq
    rw [Real.rpow_zero]
    norm_num
  have hphase : (0 : ℝ) + 2 * Real.pi / (1 / 440 * 5280) = Real.pi / 6 := by
    have h12 : (1 : ℝ) / 440 * 5280 = 12 := by norm_num
    rw [h12]
    ring
  constructor
  · have := claim_C8_sine_sample_truncated ⟨0, 3, 1, none, none⟩ 5280 0 0 3
      (convert_note_to_freq 0) rfl (by simp [Tone.get_frequency, Tone.frequency])
    rw [hfreq] at this
    rw [this, hphase]
    have hsin : Real.sin (Real.pi / 6) = 1 / 2 := Real.sin_pi_div_six
    rw [hsin]
    have h32 : (1 : ℝ) / 2 * 3 = 3 / 2 := by norm_num
    rw [h32]
    have hfloor : truncInt ((3 : ℝ) / 2) = 1 := by
      unfold truncInt
      rw [if_pos (by norm_num)]
      rw [Int.floor_eq_iff]
      norm_num
    rw [hfloor]
  · rw [Real.sin_pi_div_six]
    have h32 : (1 : ℝ) / 2 * 3 = 3 / 2 := by norm_num
    rw [h32, round_eq]
    have : (3 : ℝ) / 2 + 1 / 2 = 2 := by norm_num
    rw [this]
    norm_num

/-- C2 fails on the code: at note 0 (440 Hz), amplitude 2, levels 2,
sampling rate 1760 and the first sample, every loop iteration calls
`self._get_sine_value` with the fundamental frequency (the local `frequency`
variable incremented per harmonic is never read) and the same
`previous_phase`, so the code emits `int(sin(pi/2)*2) + int(sin(pi/2)*1) = 3`,
while the claimed sum of independent harmonics
`round(sin(pi/2)*2/1 + sin(pi)*2/2)` is 2. -/
theorem claim_C2_code_vs_spec :
    HarmonicSawTone.create_sample ⟨0, 2, 1, none, none⟩ 2 1760 0 0 =
      some (3, Real.pi / 2) ∧
    round (Real.sin (2 * Real.pi / (1 / 440 * 1760)) * ((2 : ℝ) / 1) +
      Real.sin (2 * Real.pi / (1 / 880 * 1760)) * ((2 : ℝ) / 2)) = (2 : ℤ) ∧
    (3 : ℤ) ≠ 2 := by
  have hfreq : convert_note_to_freq 0 = 440 := by
    unfold convert_note_to_freq
    rw [Real.rpow_zero]
    norm_num
  have hp2 : 2 * Real.pi / (1 / 440 * 1760) = Real.pi / 2 := by
    have h4 : (1 : ℝ) / 440 * 1760 = 4 := by norm_num
    rw [h4]
    ring
  have hpi : 2 * Real.pi / (1 / 880 * 1760) = Real.pi := by
    have h2 : (1 : ℝ) / 880 * 1760 = 2 := by norm_num
    rw [h2]
    ring
  have hstep : Tone.get_sine_value ⟨0, 2, 1, none, none⟩ 1760 0 0 =
      some (1, Real.pi / 2) := by
    simp only [Tone.get_sine_value, Tone.get_frequency, Tone.frequency, hfreq]
    simp only [Option.bind_eq_bind, Option.some_bind]
    have hphase : (0 : ℝ) + 2 * Real.pi / (1 / 440 * 1760) = Real.pi / 2 := by
      rw [zero_add, hp2]
    rw [hphase, Real.sin_pi_div_two]
    rfl
  have hamp : (⟨0, 2, 1, none, none⟩ : Tone).get_amplitude 1760 0 = some 2 := rfl
  have hT1 : truncInt (2 : ℝ) = 2 := by
    unfold truncInt
    rw [if_pos (by norm_num), Int.floor_eq_iff]
    norm_num
  have hT2 : truncInt (1 : ℝ) = 1 := by
    unfold truncInt
    rw [if_pos (by norm_num), Int.floor_eq_iff]
    norm_num
  refine ⟨?_, ?_, by decide⟩
  · simp only [HarmonicSawTone.create_sample, harmonicSawGo, Nat.cast_zero,
      Nat.cast_one, Nat.cast_ofNat, hamp, hstep, Option.some_bind]
    norm_num [hT1, hT2]
  · rw [hp2, hpi, Real.sin_pi_div_two, Real.sin_pi]
    have h2 : (1 : ℝ) * (2 / 1) + 0 * (2 / 2) = 2 := by norm_num
    rw [h2, round_eq]
    have h52 : (2 : ℝ) + 1 / 2 = 5 / 2 := by norm_num
    rw [h52, Int.floor_eq_iff]
    norm_num

/-- A frequency envelope that sweeps the center frequency: pure sustain,
12 semitones (one octave) above the default. -/
def sweepEnvelope : Envelope :=
  ⟨EnvelopeType.frequency, 0, 0, 12, 1, 0⟩

/-- The state a Peaking filter built as
`Peaking(sound_at_8Hz, starting_frequency 1, bandwidth 0, gain 0,
envelope sweepEnvelope)` reaches after one `process(0, 1)` call: the
envelope has moved `center_frequency` to 2, but the stored coefficients
were computed before that move, from center frequency 1 (`w0 = pi/4`),
so `a1 = -2*cos(pi/4)/a0 = -sqrt 2`. -/
noncomputable def sweepFilterAfterOne : FilterState :=
  { sampling_rate := 8, gain := 0, starting_frequency := 1,
    center_frequency := 2, bandwidth := 0, envelope := some sweepEnvelope,
    previous_input := 0, second_previous_input := 0, previous_output := 0,
    second_previous_output := 0, sample_number := 1,
    a0 := 1, a1 := -Real.sqrt 2, a2 := 1,
    b0 := 1, b1 := -Real.sqrt 2, b2 := 1 }

/-- C1 fails on the code: `Filter.process` runs `_recalculate_coefficients`
BEFORE updating `center_frequency` from the drive envelope, so after
`process` returns the stored coefficients come from the previous center
frequency.  Concretely, after one call the current center frequency is 2
(where a pure recomputation gives `a1 = -2*cos(pi/2)/a0 = 0`) while the
stored `a1` is `-sqrt 2 ≠ 0`: the coefficients are stale, not a pure
function of the current `(center_frequency, bandwidth, gain,
sampling_rate)`. -/
theorem claim_C1_coefficients_stale_after_process :
    Peaking.process (Filter.make 8 1 0 0 (some sweepEnvelope)) 0 1 =
      some (0, sweepFilterAfterOne) ∧
    sweepFilterAfterOne.center_frequency = 2 ∧
    sweepFilterAfterOne.a1 = -Real.sqrt 2 ∧
    (Peaking.recalculate_coefficients sweepFilterAfterOne).a1 = 0 ∧
    sweepFilterAfterOne.a1 ≠ (Peaking.recalculate_coefficients sweepFilterAfterOne).a1 := by
  have henv : Envelope.get_value ⟨EnvelopeType.frequency, 0, 0, 12, 1, 0⟩ 1 0 1 =
      some 2 := by
    have hphase : Envelope.get_phase ⟨EnvelopeType.frequency, 0, 0, 12, 1, 0⟩ 0 1 =
        some EnvelopePhase.sustain := by
      simp only [Envelope.get_phase]
      norm_num
    have hpow : ((2 : ℝ) ^ ((1 : ℝ) / 12)) ^ (12 : ℝ) = 2 := by
      rw [← Real.rpow_mul (by norm_num : (0 : ℝ) ≤ 2)]
      norm_num
    simp only [Envelope.get_value, hphase, Envelope.resolved_sustain_level,
      Envelope.get_frequency_sustain_level]
    norm_num [hpow]
    decide
  have hcos : Real.cos (2 * Real.pi * 1 / 8) = Real.sqrt 2 / 2 := by
    rw [show (2 : ℝ) * Real.pi * 1 / 8 = Real.pi / 4 by ring]
    exact Real.cos_pi_div_four
  have hcos2 : Real.cos (2 * Real.pi * 2 / 8) = 0 := by
    rw [show (2 : ℝ) * Real.pi * 2 / 8 = Real.pi / 2 by ring]
    exact Real.cos_pi_div_two
  have hrec : (Peaking.recalculate_coefficients sweepFilterAfterOne).a1 = 0 := by
    simp [Peaking.recalculate_coefficients, FilterState.w0_cosine,
      FilterState.w0, sweepFilterAfterOne, hcos2]
  have hpos : (0 : ℝ) < Real.sqrt 2 := Real.sqrt_pos.mpr (by norm_num)
  refine ⟨?_, rfl, rfl, hrec, ?_⟩
  · simp only [sweepEnvelope, sweepFilterAfterOne]
    simp only [Peaking.process, Peaking.recalculate_coefficients, Filter.make,
      FilterState.A, FilterState.alpha, FilterState.w0_sine, FilterState.w0_cosine,
      FilterState.w0, truncInt]
    simp only [Nat.cast_zero, henv, mul_zero, zero_mul, zero_div, Real.sinh_zero,
      add_zero, sub_zero, div_one, hcos, Int.cast_zero]
    have hsqrt : -2 * (Real.sqrt 2 / 2) = -Real.sqrt 2 := by ring
    norm_num [hsqrt]
  · rw [hrec]
    simp only [sweepFilterAfterOne]
    exact neg_ne_zero.mpr (ne_of_gt hpos)

/-- With gain 0 the peaking coefficients collapse: `A = 10^0 = 1`, so
`b0 = (1+alpha)/(1+alpha) = 1`, `b1 = a1` and `b2 = a2` (provided
`a0 = 1 + alpha` is nonzero). -/
theorem recalculate_gain_zero_coefficients (f : FilterState) (hg : f.gain = 0)
    (hA : 1 + alphaOf f.sampling_rate f.bandwidth f.center_frequency ≠ 0) :
    (Peaking.recalculate_coefficients f).b0 = 1 ∧
    (Peaking.recalculate_coefficients f).b1 = (Peaking.recalculate_coefficients f).a1 ∧
    (Peaking.recalculate_coefficients f).b2 = (Peaking.recalculate_coefficients f).a2 := by
  have hA1 : f.A = 1 := by
    unfold FilterState.A
    rw [hg, zero_div, Real.rpow_zero]
  have halpha : (1 : ℝ) + f.alpha ≠ 0 := by
    rw [alpha_eq_alphaOf]
    exact hA
  refine ⟨?_, rfl, ?_⟩
  · simp only [Peaking.recalculate_coefficients, hA1, mul_one, div_one]
    exact div_self halpha
  · simp only [Peaking.recalculate_coefficients, hA1, mul_one, div_one]

/-- One `process` step of a gain-0 Peaking filter whose delay memory echoes
its input history returns the input unchanged and preserves that state of
affairs, whatever the center frequency currently is and wherever the drive
envelope moves it. -/
theorem process_gain_zero_step (f : FilterState) (x : ℤ) (total : ℝ)
    (y : ℤ) (f' : FilterState)
    (hg : f.gain = 0)
    (hA : 1 + alphaOf f.sampling_rate f.bandwidth f.center_frequency ≠ 0)
    (h1 : f.previous_output = f.previous_input)
    (h2 : f.second_previous_output = f.second_previous_input)
    (hrun : Peaking.process f x total = some (y, f')) :
    y = x ∧ f'.gain = 0 ∧ f'.sampling_rate = f.sampling_rate ∧
    f'.bandwidth = f.bandwidth ∧ f'.previous_output = f'.previous_input ∧
    f'.second_previous_output = f'.second_previous_input := by
  obtain ⟨hb0, hb1, hb2⟩ := recalculate_gain_zero_coefficients f hg hA
  simp only [Peaking.process] at hrun
  set g := Peaking.recalculate_coefficients f with hgdef
  have hpo : g.previous_output = g.previous_input := h1
  have hspo : g.second_previous_output = g.second_previous_input := h2
  have hexpr : g.b0 * (x : ℝ) + g.b1 * (g.previous_input : ℝ) +
      g.b2 * (g.second_previous_input : ℝ) - g.a1 * (g.previous_output : ℝ) -
      g.a2 * (g.second_previous_output : ℝ) = (x : ℝ) := by
    rw [hb0, hb1, hb2, hpo, hspo]
    ring
  rw [show g.envelope = f.envelope from rfl] at hrun
  cases hE : f.envelope with
  | none =>
      rw [hE] at hrun
      simp only at hrun
      rw [hexpr, truncInt_intCast] at hrun
      simp only [Option.some.injEq, Prod.mk.injEq] at hrun
      obtain ⟨hy, hf'⟩ := hrun
      subst hf'
      exact ⟨hy.symm, hg, rfl, rfl, rfl, hpo⟩
  | some env =>
      rw [hE] at hrun
      simp only at hrun
      rw [show g.starting_frequency = f.starting_frequency from rfl,
        show g.sample_number = f.sample_number from rfl] at hrun
      cases hV : env.get_value f.starting_frequency (f.sample_number : ℝ) total with
      | none =>
          rw [hV] at hrun
          simp at hrun
      | some v =>
          rw [hV] at hrun
          simp only at hrun
          rw [hexpr, truncInt_intCast] at hrun
          simp only [Option.some.injEq, Prod.mk.injEq] at hrun
          obtain ⟨hy, hf'⟩ := hrun
          subst hf'
          exact ⟨hy.symm, hg, rfl, rfl, rfl, hpo⟩

/-- Feeding any sample list through a gain-0 Peaking filter whose delay
memory echoes its inputs reproduces the list, by induction over the list. -/
theorem process_list_gain_zero (total : ℝ) :
    ∀ (xs : List ℤ) (f : FilterState), f.gain = 0 →
      (∀ g ∈ Peaking.process_states f total xs,
        1 + alphaOf g.sampling_rate g.bandwidth g.center_frequency ≠ 0) →
      f.previous_output = f.previous_input →
      f.second_previous_output = f.second_previous_input →
      ∀ (ys : List ℤ) (f' : FilterState),
        Peaking.process_list f total xs = some (ys, f') → ys = xs := by
  intro xs
  induction xs with
  | nil =>
      intro f _ _ _ _ ys f' hrun
      simp only [Peaking.process_list, Option.some.injEq, Prod.mk.injEq] at hrun
      exact hrun.1.symm
  | cons x xs ih =>
      intro f hg hA h1 h2 ys f' hrun
      simp only [Peaking.process_list] at hrun
      cases hp : Peaking.process f x total with
      | none =>
          rw [hp] at hrun
          simp at hrun
      | some p =>
          obtain ⟨y, f1⟩ := p
          rw [hp] at hrun
          simp only at hrun
          have hstates : Peaking.process_states f total (x :: xs) =
              f :: Peaking.process_states f1 total xs := by
            simp only [Peaking.process_states, hp]
          rw [hstates] at hA
          have hAhead := hA f (List.mem_cons_self f _)
          have hAtail : ∀ g ∈ Peaking.process_states f1 total xs,
              1 + alphaOf g.sampling_rate g.bandwidth g.center_frequency ≠ 0 :=
            fun g hgm => hA g (List.mem_cons_of_mem f hgm)
          cases hl : Peaking.process_list f1 total xs with
          | none =>
              rw [hl] at hrun
              simp at hrun
          | some q =>
              obtain ⟨ys1, f2⟩ := q
              rw [hl] at hrun
              simp only [Option.some.injEq, Prod.mk.injEq] at hrun
              obtain ⟨hys, _⟩ := hrun
              obtain ⟨hyx, hg1, hsr, hbw, h1n, h2n⟩ :=
                process_gain_zero_step f x total y f1 hg hAhead h1 h2 hp
              have htail := ih f1 hg1 hAtail h1n h2n ys1 f2 hl
              rw [← hys, hyx, htail]

/-- C6: a Peaking filter constructed with gain 0 — any bandwidth, any
starting frequency, with or without a drive envelope — starting from the
zeroed delay memory of construction, returns every sample of any finite
input sequence unchanged.  The only proviso is that at each state a
`process` call actually reads, the normalising coefficient
`a0 = 1 + alpha` is nonzero: at such a state Python's coefficient
divisions raise ZeroDivisionError instead of returning anything. -/
theorem claim_C6_gain_zero_identity (sampling_rate starting_frequency
    bandwidth total : ℝ) (envelope : Option Envelope) (xs ys : List ℤ)
    (f' : FilterState)
    (hA : ∀ g ∈ Peaking.process_states
        (Filter.make sampling_rate starting_frequency bandwidth 0 envelope)
        total xs,
      1 + alphaOf g.sampling_rate g.bandwidth g.center_frequency ≠ 0)
    (hrun : Peaking.process_list
      (Filter.make sampling_rate starting_frequency bandwidth 0 envelope)
      total xs = some (ys, f')) :
    ys = xs :=
  process_list_gain_zero total xs
    (Filter.make sampling_rate starting_frequency bandwidth 0 envelope)
    rfl hA rfl rfl ys f' hrun

theorem claim_C6_witness :
    (∀ g ∈ Peaking.process_states (Filter.make 8 2 1 0 none) 1 [5],
      1 + alphaOf g.sampling_rate g.bandwidth g.center_frequency ≠ 0) ∧
    Peaking.process_list (Filter.make 8 2 1 0 none) 1 [5] =
      some ([5],
        { sampling_rate := 8, gain := 0, starting_frequency := 2,
          center_frequency := 2, bandwidth := 1, envelope := none,
          previous_input := 5, second_previous_input := 0, previous_output := 5,
          second_previous_output := 0, sample_number := 1,
          a0 := 1 + alphaOf 8 1 2, a1 := 0,
          a2 := (1 - alphaOf 8 1 2) / (1 + alphaOf 8 1 2), b0 := 1, b1 := 0,
          b2 := (1 - alphaOf 8 1 2) / (1 + alphaOf 8 1 2) }) ∧
    ([5] : List ℤ) = [5] := by
  have halpha_pos : 0 < alphaOf 8 1 2 := by
    unfold alphaOf
    rw [show (2 : ℝ) * Real.pi * 2 / 8 = Real.pi / 2 by ring, Real.sin_pi_div_two]
    rw [one_mul, mul_one, div_one]
    refine Real.sinh_pos_iff.mpr ?_
    exact mul_pos (div_pos (Real.log_pos (by norm_num)) (by norm_num))
      (div_pos Real.pi_pos (by norm_num))
  have hne : 1 + alphaOf 8 1 2 ≠ 0 := by
    intro h
    linarith
  have hcos0 : Real.cos (2 * Real.pi * 2 / 8) = 0 := by
    rw [show (2 : ℝ) * Real.pi * 2 / 8 = Real.pi / 2 by ring]
    exact Real.cos_pi_div_two
  have hmem : ∀ g ∈ Peaking.process_states (Filter.make 8 2 1 0 none) 1 [5],
      1 + alphaOf g.sampling_rate g.bandwidth g.center_frequency ≠ 0 := by
    intro g hgm
    simp only [Peaking.process_states] at hgm
    rw [List.mem_cons] at hgm
    rcases hgm with hgm | hgm
    · subst hgm
      exact hne
    · cases hp : Peaking.process (Filter.make 8 2 1 0 none) 5 1 with
      | none =>
          rw [hp] at hgm
          simp at hgm
      | some p =>
          obtain ⟨y, f1⟩ := p
          rw [hp] at hgm
          simp [Peaking.process_states] at hgm
  have hfold : Real.sin (2 * Real.pi * 2 / 8) *
      Real.sinh (Real.log 2 / 2 * 1 * (2 * Real.pi * 2 / 8) /
        Real.sin (2 * Real.pi * 2 / 8)) = alphaOf 8 1 2 := rfl
  have hT5 : truncInt (5 : ℝ) = 5 := by
    unfold truncInt
    rw [if_pos (by norm_num), Int.floor_eq_iff]
    norm_num
  have hrun : Peaking.process_list (Filter.make 8 2 1 0 none) 1 [5] =
      some ([5],
        { sampling_rate := 8, gain := 0, starting_frequency := 2,
          center_frequency := 2, bandwidth := 1, envelope := none,
          previous_input := 5, second_previous_input := 0, previous_output := 5,
          second_previous_output := 0, sample_number := 1,
          a0 := 1 + alphaOf 8 1 2, a1 := 0,
          a2 := (1 - alphaOf 8 1 2) / (1 + alphaOf 8 1 2), b0 := 1, b1 := 0,
          b2 := (1 - alphaOf 8 1 2) / (1 + alphaOf 8 1 2) }) := by
    simp only [Peaking.process_list, Peaking.process,
      Peaking.recalculate_coefficients, Filter.make, FilterState.A,
      FilterState.alpha, FilterState.w0_sine, FilterState.w0_cosine,
      FilterState.w0]
    simp only [hfold]
    simp only [zero_div, Real.rpow_zero, div_one, mul_one, hcos0, mul_zero,
      zero_mul, neg_zero, Int.cast_zero, add_zero, sub_zero, one_mul,
      div_self hne]
    norm_num [hT5]
  exact ⟨hmem, hrun, claim_C6_gain_zero_identity 8 2 1 1 none [5] [5] _ hmem hrun⟩

end TinkeringAudio
